import Mathlib

/-!
Verification of the ONEX userland core: virtual-path resolution
(`_virtual_to_real_path` in `userland.py` / `file_manager.py`), the command
tokenizer of `UserLandSystem._main_loop`, the `cd` built-in
(`_change_directory`), the application registry (`app_manager.py`:
`scan_apps`, `_load_app_info`, `install_app_to_virtual_fs`) and the file
browser's directory loading (`file_manager.py`: `_load_directory`).

Strings of the Python source are embedded as `List Char`; real filesystem
paths handled by `pathlib.Path` are embedded as `List Char` (for the
resolver, which manipulates them textually) or as segment lists (for the
application registry, which walks directory trees).
-/

/-- Character list of a string literal (used to write down Python string
constants and concrete inputs). -/
def chars (s : String) : List Char := s.toList

/-- The literal mount prefix "/mnt/system" checked by
`_virtual_to_real_path` via `virtual_path.startswith("/mnt/system")`. -/
def MNT : List Char := chars "/mnt/system"

/-- Splitting on a separator character, mirroring Python `str.split(sep)`
for a one-character separator: empty pieces are kept, and splitting the
empty string yields one empty piece. -/
def splitOn (sep : Char) : List Char → List (List Char)
  | [] => [[]]
  | c :: cs =>
    match splitOn sep cs with
    | [] => [[]]
    | t :: ts => if c = sep then [] :: t :: ts else (c :: t) :: ts

/-- One iteration of the normalization loop of `_virtual_to_real_path`:
`if part == "..": parts.pop() if parts else skip; elif part and
part != ".": parts.append(part)`. -/
def normStep (parts : List (List Char)) (part : List Char) : List (List Char) :=
  if part = chars ".." then parts.dropLast
  else if part ≠ [] ∧ part ≠ chars "." then parts ++ [part]
  else parts

/-- The normalized segment stack built by `_virtual_to_real_path` from
`virtual_path.split("/")`. -/
def normSegs (vp : List Char) : List (List Char) :=
  (splitOn '/' vp).foldl normStep []

/-- Joining path segments with "/", mirroring Python `"/".join(parts)`. -/
def joinSlash : List (List Char) → List Char
  | [] => []
  | [p] => p
  | p :: q :: ps => p ++ '/' :: joinSlash (q :: ps)

/-- Embedding of `_virtual_to_real_path(self, virtual_path)` (identical in
`userland.py` and `file_manager.py`).  `fsRoot` stands for `self.fs_root`
rendered as text without a trailing slash; the final `self.fs_root /
path_without_leading_slash` of the source is rendered as appending
`'/' :: path_without_leading_slash`. -/
def virtualToRealPath (fsRoot : List Char) (vp0 : List Char) : List Char :=
  let vp := if vp0 = [] then chars "/" else vp0
  if MNT.isPrefixOf vp then
    let rel := vp.drop 11
    if rel = [] then chars "/" else rel
  else
    let parts := normSegs vp
    let norm := if parts = [] then chars "/" else '/' :: joinSlash parts
    if norm = chars "/" then fsRoot
    else fsRoot ++ '/' :: norm.drop 1

/-- Segment predicate used to state that normalized output never contains
an empty, "." or ".." segment. -/
def cleanSeg (s : List Char) : Prop := s ≠ [] ∧ s ≠ chars "." ∧ s ≠ chars ".."

/-- ASCII whitespace recognized by Python `str.isspace` (the tokenizer is
only ever fed ASCII command lines). -/
def pyIsSpace (c : Char) : Bool :=
  c = ' ' || c = '\t' || c = '\n' || c = '\r' || c = '\x0b' || c = '\x0c'

/-- Scanner state of the command-splitting loop in
`UserLandSystem._main_loop`: the accumulated `cmd_parts`, the pending
`current_part`, and the quoting flags `in_quotes` / `quote_char`. -/
structure TokState where
  parts : List (List Char)
  current : List Char
  inQuotes : Bool
  quoteChar : Option Char
deriving DecidableEq

/-- One iteration of `for char in cmd` in `_main_loop`: quote characters
toggle or are copied verbatim, unquoted whitespace flushes the current
token, and every other character is appended to the current token. -/
def tokStep (st : TokState) (c : Char) : TokState :=
  if c = '"' ∨ c = '\'' then
    if st.inQuotes = false then { st with inQuotes := true, quoteChar := some c }
    else if st.quoteChar = some c then { st with inQuotes := false, quoteChar := none }
    else { st with current := st.current ++ [c] }
  else if pyIsSpace c = true ∧ st.inQuotes = false then
    if st.current = [] then st
    else { st with parts := st.parts ++ [st.current], current := [] }
  else { st with current := st.current ++ [c] }

/-- Embedding of the command-splitting block of `_main_loop`: run the
character loop, flush the final token, and report `none` when a quote was
left open (the source prints "Errore: citazione non chiusa nel comando"
and continues without dispatching). -/
def tokenizeCmd (cmd : List Char) : Option (List (List Char)) :=
  let st := cmd.foldl tokStep ⟨[], [], false, none⟩
  let parts := if st.current = [] then st.parts else st.parts ++ [st.current]
  if st.inQuotes then none else some parts

/-- Specification-side scan that only tracks the open quote character of a
line, independent of token building; used to phrase "a quote is opened and
never closed". -/
def openQuoteAfter : Option Char → List Char → Option Char
  | q, [] => q
  | q, c :: cs =>
    if c = '"' ∨ c = '\'' then
      match q with
      | none => openQuoteAfter (some c) cs
      | some qc => if c = qc then openQuoteAfter none cs else openQuoteAfter q cs
    else openQuoteAfter q cs

/-- A line in which a quote is opened and never closed. -/
def hasUnterminatedQuote (cmd : List Char) : Bool :=
  (openQuoteAfter none cmd).isSome

/-- Shell session state mutated by the `cd` built-in: the current virtual
directory string and its cached real path. -/
structure ShellState where
  currentDir : List Char
  realCurrentDir : List Char
deriving DecidableEq

/-- Error messages printed by `_change_directory`: "cd: 'path': No such
file or directory" and "cd: 'path': Not a directory". -/
inductive CdMsg where
  | noSuchFile
  | notADirectory
deriving DecidableEq

/-- Rendering of `str(pathlib.Path(s).parent)` for POSIX paths: pathlib
parses a path into its components (dropping empty and "." pieces), and
`parent` removes the last component; the root is its own parent.  The
special POSIX "//" root is not modelled (the session never produces it). -/
def pyPathParent (s : List Char) : List Char :=
  let comps := (splitOn '/' s).filter (fun p => decide (p ≠ [] ∧ p ≠ chars "."))
  let comps2 := comps.dropLast
  if s.head? = some '/' then
    if comps2 = [] then chars "/" else '/' :: joinSlash comps2
  else
    if comps2 = [] then chars "." else joinSlash comps2

/-- The virtual target computed by the first half of `_change_directory`:
absolute paths are taken verbatim, the literal argument ".." goes to the
parent of the current directory (returning `none` for the silent early
return when the current directory is "/"), and anything else is appended
to the current directory. -/
def cdResolveVirtual (st : ShellState) (path : List Char) : Option (List Char) :=
  if path.head? = some '/' then some path
  else if path = chars ".." then
    if st.currentDir = chars "/" then none
    else
      let np := pyPathParent st.currentDir
      some (if np = [] then chars "/" else np)
  else
    some (if st.currentDir.getLast? = some '/' then st.currentDir ++ path
          else st.currentDir ++ '/' :: path)

/-- Embedding of `_change_directory(self, path)`.  The real filesystem is
abstracted by two oracles `ex` and `isDir` telling whether a real path
exists and is a directory.  The result pairs the session state after the
call with the message printed (`none` when nothing is printed). -/
def changeDirectory (fsRoot : List Char) (ex isDir : List Char → Bool)
    (st : ShellState) (path : List Char) : ShellState × Option CdMsg :=
  match cdResolveVirtual st path with
  | none => (st, none)
  | some np =>
    let rp := virtualToRealPath fsRoot np
    if ex rp = false then (st, some CdMsg.noSuchFile)
    else if isDir rp = false then (st, some CdMsg.notADirectory)
    else ({ currentDir := np, realCurrentDir := rp }, none)

/-- A virtual path in normalized form: the root "/", or "/" followed by
"/"-separated segments none of which is empty, "." or "..". -/
def isNormalizedVPath (p : List Char) : Bool :=
  p = chars "/" ||
    (p.head? = some '/' &&
      (splitOn '/' (p.drop 1)).all
        (fun s => decide (s ≠ [] ∧ s ≠ chars "." ∧ s ≠ chars "..")))

/-- Path segment (one file or directory name). -/
abbrev Seg := List Char

/-- Real filesystem path as a list of segments from the root. -/
abbrev FPath := List Seg

/-- Fields an `app.json` descriptor may carry, as read by
`_load_app_info` via `data.get(...)`; `none` stands for an absent key. -/
structure JsonData where
  name : Option Seg
  jtype : Option Seg
  description : Option Seg
  version : Option Seg
  author : Option Seg
  systemApp : Option Bool
deriving DecidableEq

/-- Module attributes `_load_app_info` introspects from `main.py`
(`__title__`, `__description__`, `__version__`, `__author__`,
`__system_app__`); `none` stands for an absent attribute. -/
structure PyMeta where
  title : Option Seg
  description : Option Seg
  version : Option Seg
  author : Option Seg
  systemApp : Option Bool
deriving DecidableEq

/-- Semantic content of a file, at the granularity the registry code
distinguishes: a JSON descriptor that parses (or not), a Python module
whose import succeeds with the given attributes (or raises), a text file
whose lines can be read (or whose read raises), a wrapper script written
by the installer, or opaque bytes. -/
inductive Content where
  | jsonDesc : Option JsonData → Content
  | pyMod : Option PyMeta → Content
  | shText : Option (List Seg) → Content
  | wrapperScript : Seg → FPath → Content
  | blob : Nat → Content
deriving DecidableEq

/-- Filesystem entry: directory flag, executable permission bit
(`os.access(path, os.X_OK)`), and content (ignored for directories). -/
structure Entry where
  isDir : Bool
  executable : Bool
  content : Content
deriving DecidableEq

/-- Filesystem state: an association list from absolute paths to entries,
in directory-iteration order. -/
abbrev FS := List (FPath × Entry)

/-- Lookup of a path in the filesystem (existence check). -/
def fsGet : FS → FPath → Option Entry
  | [], _ => none
  | (q, e) :: rest, p => if q = p then some e else fsGet rest p

/-- Write a path (create or overwrite in place, preserving iteration
order of pre-existing entries). -/
def fsSet : FS → FPath → Entry → FS
  | [], p, e => [(p, e)]
  | (q, d) :: rest, p, e => if q = p then (q, e) :: rest else (q, d) :: fsSet rest p e

/-- Direct children of a directory, in filesystem order (models
`Path.iterdir()` / `Path.glob("*")`). -/
def fsChildren (fs : FS) (p : FPath) : List (Seg × Entry) :=
  fs.filterMap fun pe =>
    match pe.1.drop p.length with
    | [s] => if pe.1.take p.length = p then some (s, pe.2) else none
    | _ => none

/-- Index of the last '.' in a name, if any (Python `str.rfind('.')`). -/
def rfindDot : List Char → Option Nat
  | [] => none
  | c :: cs =>
    match rfindDot cs with
    | some i => some (i + 1)
    | none => if c = '.' then some 0 else none

/-- Python `pathlib.PurePath.suffix`: the part from the last dot on, when
that dot is neither the first nor the last character of the name. -/
def pySuffix (s : List Char) : List Char :=
  match rfindDot s with
  | some i => if 0 < i ∧ i < s.length - 1 then s.drop i else []
  | none => []

/-- Python `pathlib.PurePath.stem`: the name without its suffix. -/
def pyStem (s : List Char) : List Char :=
  match rfindDot s with
  | some i => if 0 < i ∧ i < s.length - 1 then s.take i else s
  | none => s

/-- Python `str.strip()` restricted to ASCII whitespace. -/
def pyStrip (s : List Char) : List Char :=
  ((s.dropWhile pyIsSpace).reverse.dropWhile pyIsSpace).reverse

/-- Python `str.lower()` restricted to ASCII letters. -/
def pyLower (s : List Char) : List Char := s.map Char.toLower

/-- Registered application record (`AppInfo` in `app_manager.py`). -/
structure AppInfo where
  name : Seg
  path : FPath
  appType : Seg
  description : Seg
  version : Seg
  author : Seg
  systemApp : Bool
deriving DecidableEq

/-- Accumulator of the comment-marker scan over the first 20 lines of
`main.sh` in `_load_app_info`. -/
structure ShMeta where
  name : Seg
  desc : Seg
  ver : Seg
  auth : Seg
  sys : Bool
deriving DecidableEq

/-- One line of the `main.sh` metadata scan: strip the line, then match
the "# Name:", "# Description:", "# Version:", "# Author:", "# System:"
markers with their fixed slice offsets. -/
def shMetaStep (m : ShMeta) (line0 : Seg) : ShMeta :=
  let line := pyStrip line0
  if (chars "# Name:").isPrefixOf line then { m with name := pyStrip (line.drop 7) }
  else if (chars "# Description:").isPrefixOf line then
    { m with desc := pyStrip (line.drop 14) }
  else if (chars "# Version:").isPrefixOf line then
    { m with ver := pyStrip (line.drop 10) }
  else if (chars "# Author:").isPrefixOf line then
    { m with auth := pyStrip (line.drop 9) }
  else if (chars "# System:").isPrefixOf line then
    { m with sys := pyLower (pyStrip (line.drop 9)) = chars "true" }
  else m

/-- The shell-comment metadata extracted from the first 20 lines of a
`main.sh`, starting from the defaults of `_load_app_info`. -/
def shMetaOf (dirName : Seg) (ls : List Seg) : ShMeta :=
  (ls.take 20).foldl shMetaStep ⟨dirName, [], chars "1.0.0", [], false⟩

/-- Result of `json.load` on an `app.json` entry: succeeds only for a
regular file whose text parses as JSON (a directory or unparseable file
raises, which `_load_app_info` catches). -/
def jsonOf : Option Entry → Option JsonData
  | some e => if e.isDir then none else
      match e.content with
      | Content.jsonDesc r => r
      | _ => none
  | none => none

/-- Result of importing `main.py` as a module: succeeds only for a
regular Python file whose top-level execution succeeds. -/
def pyOf : Option Entry → Option PyMeta
  | some e => if e.isDir then none else
      match e.content with
      | Content.pyMod r => r
      | _ => none
  | none => none

/-- Result of `readlines()` on a `main.sh` entry: succeeds only for a
readable text file. -/
def shLinesOf : Option Entry → Option (List Seg)
  | some e => if e.isDir then none else
      match e.content with
      | Content.shText r => r
      | _ => none
  | none => none

/-- Embedding of `AppManager._load_app_info(app_dir)`; `dirName` is
`app_dir.name`.  An existing `app.json` that fails to parse returns
`none` (the source prints an error and returns `None`); a failing
`main.py` import or `main.sh` read falls back to a minimal descriptor;
a directory with none of the three files returns `none`. -/
def loadAppInfo (fs : FS) (appDir : FPath) (dirName : Seg) : Option AppInfo :=
  let appJson := fsGet fs (appDir ++ [chars "app.json"])
  let mainPy := fsGet fs (appDir ++ [chars "main.py"])
  let mainSh := fsGet fs (appDir ++ [chars "main.sh"])
  if appJson.isSome then
    match jsonOf appJson with
    | some d =>
      some { name := d.name.getD dirName
             path := appDir
             appType := d.jtype.getD
               (if mainSh.isSome ∧ mainPy.isSome = false then chars "sh" else chars "py")
             description := d.description.getD []
             version := d.version.getD (chars "1.0.0")
             author := d.author.getD []
             systemApp := d.systemApp.getD false }
    | none => none
  else if mainPy.isSome then
    match pyOf mainPy with
    | some m =>
      some { name := m.title.getD dirName
             path := appDir
             appType := chars "py"
             description := m.description.getD []
             version := m.version.getD (chars "1.0.0")
             author := m.author.getD []
             systemApp := m.systemApp.getD false }
    | none =>
      some { name := dirName, path := appDir, appType := chars "py"
             description := chars "Applicazione: " ++ dirName
             version := chars "1.0.0", author := [], systemApp := false }
  else if mainSh.isSome then
    match shLinesOf mainSh with
    | some ls =>
      some { name := (shMetaOf dirName ls).name
             path := appDir
             appType := chars "sh"
             description := (shMetaOf dirName ls).desc
             version := (shMetaOf dirName ls).ver
             author := (shMetaOf dirName ls).auth
             systemApp := (shMetaOf dirName ls).sys }
    | none =>
      some { name := dirName, path := appDir, appType := chars "sh"
             description := chars "Applicazione: " ++ dirName
             version := chars "1.0.0", author := [], systemApp := false }
  else none

/-- Python `dict` assignment `d[k] = v`: overwrite in place when the key
exists, append otherwise. -/
def dictInsert (d : List (Seg × AppInfo)) (k : Seg) (v : AppInfo) :
    List (Seg × AppInfo) :=
  if (d.filter fun p => decide (p.1 = k)).isEmpty then d ++ [(k, v)]
  else d.map fun p => if p.1 = k then (k, v) else p

/-- Python `dict` lookup. -/
def dictFind : List (Seg × AppInfo) → Seg → Option AppInfo
  | [], _ => none
  | (k2, v) :: rest, k => if k2 = k then some v else dictFind rest k

/-- The two namespaces rebuilt by `scan_apps`: `self.apps` (user apps by
name) and `self.system_apps`. -/
structure ScanResult where
  apps : List (Seg × AppInfo)
  systemApps : List (Seg × AppInfo)
deriving DecidableEq

/-- One candidate directory of the `apps_dir` loop of `scan_apps`. -/
def scanStepUser (fs : FS) (appsDir : FPath) (r : ScanResult)
    (child : Seg × Entry) : ScanResult :=
  if child.2.isDir then
    match loadAppInfo fs (appsDir ++ [child.1]) child.1 with
    | some info =>
      if info.systemApp = false then { r with apps := dictInsert r.apps info.name info }
      else { r with systemApps := dictInsert r.systemApps info.name info }
    | none => r
  else r

/-- The `AppInfo` built for an executable script found in the system
binaries directory by `scan_apps`. -/
def sysBinInfo (sysBinDir : FPath) (fileName : Seg) : AppInfo :=
  { name := pyStem fileName
    path := sysBinDir ++ [fileName]
    appType := (pySuffix fileName).drop 1
    description := chars "Applicazione di sistema: " ++ pyStem fileName
    version := chars "1.0.0", author := [], systemApp := true }

/-- One item of the `system_apps_dir` loop of `scan_apps`: executable
regular files with a ".py" or ".sh" suffix become system apps named after
their stem. -/
def scanStepBin (sysBinDir : FPath) (r : ScanResult) (child : Seg × Entry) :
    ScanResult :=
  if child.2.isDir = false
      ∧ (pySuffix child.1 = chars ".py" ∨ pySuffix child.1 = chars ".sh")
      ∧ child.2.executable = true then
    { r with systemApps :=
        dictInsert r.systemApps (pyStem child.1) (sysBinInfo sysBinDir child.1) }
  else r

/-- Embedding of `AppManager.scan_apps`: reset both namespaces, walk the
subdirectories of `apps_dir`, then walk the files of `system_apps_dir`. -/
def scanApps (fs : FS) (appsDir sysBinDir : FPath) : ScanResult :=
  let r1 := (fsChildren fs appsDir).foldl (scanStepUser fs appsDir) ⟨[], []⟩
  (fsChildren fs sysBinDir).foldl (scanStepBin sysBinDir) r1

/-- Python `Path.mkdir(parents=True, exist_ok=True)`: create every
missing prefix of the path as a directory. -/
def fsMkdirp (fs : FS) (p : FPath) : FS :=
  (List.range (p.length + 1)).foldl
    (fun acc n =>
      if (fsGet acc (p.take n)).isSome then acc
      else fsSet acc (p.take n) ⟨true, false, Content.blob 0⟩)
    fs

/-- Copying the regular files directly inside a source app directory into
a destination directory (the inner loop of `install_app_to_virtual_fs`):
contents are copied byte for byte, and `chmod 0o755` is applied exactly
when the source file is executable (otherwise a pre-existing destination
file keeps its old permission bit). -/
def installCopyFiles (fs : FS) (srcDir destDir : FPath) : FS :=
  (fsChildren fs srcDir).foldl
    (fun acc c =>
      if c.2.isDir = false then
        fsSet acc (destDir ++ [c.1])
          ⟨false,
           (if c.2.executable then true
            else match fsGet acc (destDir ++ [c.1]) with
                 | some e => e.executable
                 | none => false),
           c.2.content⟩
      else acc)
    fs

/-- Embedding of `AppManager.install_app_to_virtual_fs` (the successful
path, no exception): ensure the destination directories exist, copy every
user app's files into `virtual_apps_dir/<name>`, then write an executable
wrapper into `system_apps_dir/<name>` for every flagged system app whose
wrapper does not already exist. -/
def installAppToVirtualFs (fs0 : FS) (apps sysApps : List (Seg × AppInfo))
    (virtualAppsDir sysBinDir : FPath) : FS :=
  let fs1 := fsMkdirp (fsMkdirp fs0 virtualAppsDir) sysBinDir
  let fs2 := apps.foldl
    (fun acc p =>
      let destDir := virtualAppsDir ++ [p.1]
      let acc1 := if (fsGet acc destDir).isSome then acc
                  else fsSet acc destDir ⟨true, false, Content.blob 0⟩
      installCopyFiles acc1 p.2.path destDir)
    fs1
  sysApps.foldl
    (fun acc p =>
      if p.2.systemApp = false then acc
      else if (fsGet acc (sysBinDir ++ [p.1])).isSome then acc
      else fsSet acc (sysBinDir ++ [p.1])
        ⟨false, true, Content.wrapperScript p.2.appType p.2.path⟩)
    fs2

/-- Browser list entry as far as sorting is concerned (`FileItem` in
`file_manager.py`): display name and directory flag. -/
structure FileItem where
  name : List Char
  isDir : Bool
deriving DecidableEq

/-- First component of the sort key in `_load_directory`:
`0 if x.name == ".." else (1 if not x.is_dir else 0)`. -/
def itemSortGroup (x : FileItem) : Nat :=
  if x.name = chars ".." then 0 else if x.isDir = false then 1 else 0

/-- Second component of the sort key: `x.name.lower()`. -/
def itemSortName (x : FileItem) : List Char := pyLower x.name

/-- Lexicographic comparison of character lists by code point, as Python
compares strings. -/
def charListLe : List Char → List Char → Bool
  | [], _ => true
  | _ :: _, [] => false
  | a :: as, b :: bs => if a < b then true else if b < a then false else charListLe as bs

/-- Comparison of two items by the tuple key
`(group, lowercased name)` used by `_load_directory`. -/
def itemLeB (a b : FileItem) : Bool :=
  if itemSortGroup a < itemSortGroup b then true
  else if itemSortGroup b < itemSortGroup a then false
  else charListLe (itemSortName a) (itemSortName b)

/-- Key order as a relation. -/
abbrev itemLe (a b : FileItem) : Prop := itemLeB a b = true

/-- Embedding of `self.items.sort(key=...)` in `_load_directory`: Python
`list.sort` is a stable sort by the key, and every stable sort by a total
preorder computes the same list, so insertion sort renders it
faithfully. -/
def sortItems (items : List FileItem) : List FileItem :=
  List.insertionSort itemLe items

/-- Item list produced by `_load_directory`: a parent entry named ".."
(a directory) is prepended when the current virtual directory is not "/",
the directory's own entries follow, and the whole list is sorted by the
tuple key. -/
def loadDirectoryItems (currentVirtualDir : List Char) (entries : List FileItem) :
    List FileItem :=
  sortItems (if currentVirtualDir = chars "/" then entries
             else ⟨chars "..", true⟩ :: entries)

/-- Directory entry shorthand for concrete filesystem states. -/
def dirE : Entry := ⟨true, false, Content.blob 0⟩

/-- Apps directory of the concrete C6 scenario. -/
def appsDirC6 : FPath := [chars "apps6"]

/-- App directory whose `app.json` is unparseable. -/
def brokenDirC6 : FPath := appsDirC6 ++ [chars "broken"]

/-- Concrete filesystem for C6: one app directory with a corrupt
`app.json` and a perfectly readable `main.sh` entry script. -/
def fsC6 : FS :=
  [(appsDirC6, dirE),
   (brokenDirC6, dirE),
   (brokenDirC6 ++ [chars "app.json"], ⟨false, false, Content.jsonDesc none⟩),
   (brokenDirC6 ++ [chars "main.sh"],
     ⟨false, true, Content.shText (some [chars "#!/bin/sh", chars "echo hi"])⟩)]

/-- Concrete filesystem for the C6 witness: an app directory whose
`main.py` exists but fails to import. -/
def fsC6py : FS :=
  [(appsDirC6, dirE),
   (appsDirC6 ++ [chars "pybad"], dirE),
   (appsDirC6 ++ [chars "pybad", chars "main.py"], ⟨false, true, Content.pyMod none⟩)]

/-- Concrete filesystem for the C6 witness: an app directory whose
`main.sh` exists but cannot be read. -/
def fsC6sh : FS :=
  [(appsDirC6, dirE),
   (appsDirC6 ++ [chars "shbad"], dirE),
   (appsDirC6 ++ [chars "shbad", chars "main.sh"], ⟨false, true, Content.shText none⟩)]

/-- Apps directory of the concrete C7 scenario. -/
def appsDirC7 : FPath := [chars "apps7"]

/-- System binaries directory of the concrete C7 scenario (empty). -/
def sysBinDirC7 : FPath := [chars "bin7"]

/-- Concrete filesystem for C7: one app folder with a valid descriptor
declaring name "calc" and `system_app` false, and one folder with only a
shell entry script carrying "# Name: shtool" and "# System: true"
comment markers. -/
def fsC7 : FS :=
  [(appsDirC7, dirE),
   (appsDirC7 ++ [chars "calc"], dirE),
   (appsDirC7 ++ [chars "calc", chars "app.json"],
     ⟨false, false, Content.jsonDesc (some
       { name := some (chars "calc"), jtype := none
         description := some (chars "Calculator"), version := none
         author := none, systemApp := some false })⟩),
   (appsDirC7 ++ [chars "shellapp"], dirE),
   (appsDirC7 ++ [chars "shellapp", chars "main.sh"],
     ⟨false, true, Content.shText (some
       [chars "#!/bin/sh", chars "# Name: shtool", chars "# System: true",
        chars "echo hi"])⟩)]

/-- Base path of the concrete C8 scenario (`AppManager.base_path`). -/
def basePathC8 : FPath := [chars "onex"]

/-- The scanned apps source directory `base_path / "apps"`. -/
def appsDirC8 : FPath := basePathC8 ++ [chars "apps"]

/-- The virtual filesystem root `base_path / "userland_fs"`. -/
def fsRootC8 : FPath := basePathC8 ++ [chars "userland_fs"]

/-- The install destination `fs_root / "usr" / "apps"`. -/
def vAppsDirC8 : FPath := fsRootC8 ++ [chars "usr", chars "apps"]

/-- The system binaries directory `fs_root / "bin"`. -/
def sysBinDirC8 : FPath := fsRootC8 ++ [chars "bin"]

/-- Concrete filesystem for C8: one registered user app "calc" with a
valid descriptor and an executable `main.py`. -/
def fsC8 : FS :=
  [(appsDirC8, dirE),
   (appsDirC8 ++ [chars "calc"], dirE),
   (appsDirC8 ++ [chars "calc", chars "app.json"],
     ⟨false, false, Content.jsonDesc (some
       { name := some (chars "calc"), jtype := none, description := none
         version := none, author := none, systemApp := some false })⟩),
   (appsDirC8 ++ [chars "calc", chars "main.py"], ⟨false, true, Content.pyMod none⟩)]

/-- First scan of the C8 scenario. -/
def scanC8 : ScanResult := scanApps fsC8 appsDirC8 sysBinDirC8

/-- Filesystem after `install_app_to_virtual_fs` in the C8 scenario. -/
def fsC8i : FS :=
  installAppToVirtualFs fsC8 scanC8.apps scanC8.systemApps vAppsDirC8 sysBinDirC8

/-- Rescan after installation in the C8 scenario. -/
def scanC8r : ScanResult := scanApps fsC8i appsDirC8 sysBinDirC8

/-- The `AppInfo` registered for "calc" in the C8 scenario. -/
def calcInfoC8 : AppInfo :=
  { name := chars "calc", path := appsDirC8 ++ [chars "calc"]
    appType := chars "py", description := [], version := chars "1.0.0"
    author := [], systemApp := false }

theorem normStep_clean {parts : List (List Char)} {p : List Char}
    (h : ∀ s ∈ parts, cleanSeg s) : ∀ s ∈ normStep parts p, cleanSeg s := by
  intro s hs
  unfold normStep at hs
  split at hs
  · exact h s (List.dropLast_subset _ hs)
  · split at hs
    · rcases List.mem_append.mp hs with h1 | h1
      · exact h s h1
      · rcases List.mem_singleton.mp h1 with rfl
        rename_i hdd hp
        exact ⟨hp.1, hp.2, hdd⟩
    · exact h s hs

theorem foldl_normStep_clean (l : List (List Char)) :
    ∀ acc, (∀ s ∈ acc, cleanSeg s) → ∀ s ∈ l.foldl normStep acc, cleanSeg s := by
  induction l with
  | nil => intro acc h s hs; exact h s hs
  | cons p ps ih =>
    intro acc h s hs
    exact ih (normStep acc p) (normStep_clean h) s hs

theorem normSegs_clean (vp : List Char) : ∀ s ∈ normSegs vp, cleanSeg s :=
  foldl_normStep_clean _ [] (by intro s hs; cases hs)

theorem joinSlash_ne_nil {p : List Char} (rest : List (List Char)) (hp : p ≠ []) :
    joinSlash (p :: rest) ≠ [] := by
  cases rest with
  | nil => simpa [joinSlash] using hp
  | cons q qs => simp [joinSlash]

/-- CLAIM C1.  For every virtual path that does not start with the mount
prefix, `_virtual_to_real_path` returns `fs_root` joined with the lexically
normalized segment stack of the path (".." pops when nonempty, "." and
empty segments are skipped, others are pushed), the normalized stack never
contains an empty, "." or ".." segment, and the result always stays inside
`fs_root` (it is `fs_root` itself or an extension of it). -/
theorem virtualToRealPath_sandbox (fsRoot vp : List Char)
    (h : MNT.isPrefixOf vp = false) :
    virtualToRealPath fsRoot vp =
      (if normSegs vp = [] then fsRoot
       else fsRoot ++ '/' :: joinSlash (normSegs vp))
    ∧ (∀ s ∈ normSegs vp, cleanSeg s)
    ∧ fsRoot <+: virtualToRealPath fsRoot vp := by
  have hclean := normSegs_clean vp
  have hmain : virtualToRealPath fsRoot vp =
      (if normSegs vp = [] then fsRoot
       else fsRoot ++ '/' :: joinSlash (normSegs vp)) := by
    by_cases hvp : vp = []
    · subst hvp
      have h0 : normSegs ([] : List Char) = [] := by decide
      rw [h0]
      rfl
    · unfold virtualToRealPath
      simp only [if_neg hvp, h, Bool.false_eq_true, if_false]
      cases hparts : normSegs vp with
      | nil => simp
      | cons p rest =>
        have hp : p ≠ [] := (hclean p (by rw [hparts]; exact List.mem_cons_self _ _)).1
        have hj : joinSlash (p :: rest) ≠ [] := joinSlash_ne_nil rest hp
        have hne : ('/' :: joinSlash (p :: rest)) ≠ chars "/" := by
          intro hcontra
          apply hj
          have := List.cons.injEq '/' (joinSlash (p :: rest)) '/' [] ▸ hcontra
          simpa [chars] using hcontra
        simp [hne]
  refine ⟨hmain, hclean, ?_⟩
  rw [hmain]
  split
  · exact List.prefix_rfl
  · exact List.prefix_append _ _

/-- Witness for C1 at the concrete input "/a/../../b/./c" under fs_root
"/fs": two extra ".." beyond root are absorbed and the result is
"/fs/b/c". -/
theorem virtualToRealPath_sandbox_witness :
    MNT.isPrefixOf (chars "/a/../../b/./c") = false
    ∧ (virtualToRealPath (chars "/fs") (chars "/a/../../b/./c") =
        (if normSegs (chars "/a/../../b/./c") = [] then chars "/fs"
         else chars "/fs" ++ '/' :: joinSlash (normSegs (chars "/a/../../b/./c")))
      ∧ (∀ s ∈ normSegs (chars "/a/../../b/./c"), cleanSeg s)
      ∧ chars "/fs" <+: virtualToRealPath (chars "/fs") (chars "/a/../../b/./c")) :=
  ⟨by decide, virtualToRealPath_sandbox (chars "/fs") (chars "/a/../../b/./c") (by decide)⟩

/-- CLAIM C2.  Resolving "/mnt/system" yields the host root "/", and
resolving "/mnt/system" followed by "/rest" yields the host absolute path
"/rest" (concretely "/mnt/system/etc/hosts" resolves to "/etc/hosts"); the
result never involves `fs_root` (it is the same for every `fsRoot`). -/
theorem virtualToRealPath_mount :
    (∀ fsRoot : List Char, virtualToRealPath fsRoot (chars "/mnt/system") = chars "/")
    ∧ (∀ (fsRoot rest : List Char),
        virtualToRealPath fsRoot (MNT ++ '/' :: rest) = '/' :: rest)
    ∧ (∀ fsRoot : List Char,
        virtualToRealPath fsRoot (chars "/mnt/system/etc/hosts") = chars "/etc/hosts") := by
  refine ⟨fun fsRoot => rfl, ?_, fun fsRoot => rfl⟩
  intro fsRoot rest
  have hne : MNT ++ '/' :: rest ≠ [] := by
    intro hcontra
    exact absurd (List.append_eq_nil.mp hcontra).1 (by decide)
  have hpre : MNT.isPrefixOf (MNT ++ '/' :: rest) = true :=
    List.isPrefixOf_iff_prefix.mpr (List.prefix_append _ _)
  have hdrop : (MNT ++ '/' :: rest).drop 11 = '/' :: rest := by
    have hlen : MNT.length = 11 := by decide
    rw [← hlen, List.drop_left]
  unfold virtualToRealPath
  simp only [if_neg hne, hpre, if_true, hdrop]
  simp

/-- CLAIM C10.  The mount test is a raw string-prefix match with a fixed
11-character cut: every virtual path whose characters start with
"/mnt/system" takes the mount branch and, when anything remains after the
first 11 characters, the resolver returns exactly that remainder.  In
particular "/mnt/systemfoo" resolves to the relative path "foo" for every
`fs_root` — not a path under `fs_root`, and not an absolute host path. -/
theorem virtualToRealPath_mount_raw_slice :
    (∀ (fsRoot vp : List Char), MNT.isPrefixOf vp = true → vp.drop 11 ≠ [] →
      virtualToRealPath fsRoot vp = vp.drop 11)
    ∧ (∀ fsRoot : List Char,
        virtualToRealPath fsRoot (chars "/mnt/systemfoo") = chars "foo")
    ∧ (chars "foo").head? ≠ some '/' := by
  refine ⟨?_, fun fsRoot => rfl, by decide⟩
  intro fsRoot vp hpre hdrop
  have hvp : vp ≠ [] := by
    intro hcontra
    subst hcontra
    exact absurd hpre (by decide)
  unfold virtualToRealPath
  simp only [if_neg hvp, hpre, if_true, if_neg hdrop]

/-- Witness for C10 applying the general slice fact at "/mnt/systemfoo". -/
theorem virtualToRealPath_mount_raw_slice_witness :
    MNT.isPrefixOf (chars "/mnt/systemfoo") = true
    ∧ (chars "/mnt/systemfoo").drop 11 ≠ []
    ∧ virtualToRealPath (chars "/fs") (chars "/mnt/systemfoo") =
        (chars "/mnt/systemfoo").drop 11 :=
  ⟨by decide, by decide,
    virtualToRealPath_mount_raw_slice.1 (chars "/fs") (chars "/mnt/systemfoo")
      (by decide) (by decide)⟩

theorem foldl_tokStep_quote (cmd : List Char) :
    ∀ st : TokState, st.inQuotes = st.quoteChar.isSome →
      (cmd.foldl tokStep st).inQuotes = (openQuoteAfter st.quoteChar cmd).isSome
      ∧ (cmd.foldl tokStep st).quoteChar = openQuoteAfter st.quoteChar cmd := by
  induction cmd with
  | nil => intro st h; exact ⟨h, rfl⟩
  | cons c cs ih =>
    intro st h
    show (cs.foldl tokStep (tokStep st c)).inQuotes = _
      ∧ (cs.foldl tokStep (tokStep st c)).quoteChar = _
    by_cases hc : c = '"' ∨ c = '\''
    · cases hq : st.quoteChar with
      | none =>
        have hiq : st.inQuotes = false := by rw [h, hq]; rfl
        have h1 : tokStep st c = { st with inQuotes := true, quoteChar := some c } := by
          simp [tokStep, hc, hiq]
        have h2 : openQuoteAfter none (c :: cs) = openQuoteAfter (some c) cs := by
          simp [openQuoteAfter, hc]
        rw [h1, h2]
        exact ih _ (by simp)
      | some qc =>
        have hiq : st.inQuotes = true := by rw [h, hq]; rfl
        by_cases hqc : qc = c
        · subst hqc
          have h1 : tokStep st qc = { st with inQuotes := false, quoteChar := none } := by
            simp [tokStep, hc, hiq, hq]
          have h2 : openQuoteAfter (some qc) (qc :: cs) = openQuoteAfter none cs := by
            simp [openQuoteAfter, hc]
          rw [h1, h2]
          exact ih _ (by simp)
        · have h1 : tokStep st c = { st with current := st.current ++ [c] } := by
            have hne : ¬ st.quoteChar = some c := by
              rw [hq]; intro hcon; exact hqc (Option.some.injEq qc c ▸ hcon)
            simp [tokStep, hc, hiq, hne]
          have h2 : openQuoteAfter (some qc) (c :: cs) = openQuoteAfter (some qc) cs := by
            simp only [openQuoteAfter, if_pos hc]
            rw [if_neg (fun hcon => hqc hcon.symm)]
          rw [h1, h2, ← hq]
          exact ih _ (by simpa [hq] using h)
    · have h1 : (tokStep st c).inQuotes = st.inQuotes
          ∧ (tokStep st c).quoteChar = st.quoteChar := by
        unfold tokStep
        rw [if_neg hc]
        split
        · split <;> simp
        · simp
      have h2 : openQuoteAfter st.quoteChar (c :: cs) = openQuoteAfter st.quoteChar cs := by
        simp [openQuoteAfter, hc]
      rw [h2]
      have := ih (tokStep st c) (by rw [h1.1, h1.2]; exact h)
      rw [h1.2] at this
      exact this

/-- CLAIM C3.  The command splitter yields exactly the tokens "ls", "-a",
"my dir" for the line with a double-quoted argument; the line with an
unterminated quote yields no token list (an error is reported instead);
and in general the splitter refuses a line exactly when a quote is opened
and never closed. -/
theorem tokenizeCmd_spec :
    tokenizeCmd (chars "ls -a \"my dir\"") = some [chars "ls", chars "-a", chars "my dir"]
    ∧ tokenizeCmd (chars "echo \"unterminated") = none
    ∧ ∀ line, tokenizeCmd line = none ↔ hasUnterminatedQuote line = true := by
  refine ⟨by decide, by decide, ?_⟩
  intro line
  have h := foldl_tokStep_quote line ⟨[], [], false, none⟩ rfl
  rw [show (⟨[], [], false, none⟩ : TokState).quoteChar = none from rfl] at h
  unfold hasUnterminatedQuote
  rw [← h.1]
  simp only [tokenizeCmd]
  cases hiq : (line.foldl tokStep ⟨[], [], false, none⟩).inQuotes <;> simp [hiq]

/-- Witness for C3 applying the general unterminated-quote equivalence at
a concrete line. -/
theorem tokenizeCmd_spec_witness :
    tokenizeCmd (chars "echo 'oops") = none ↔
      hasUnterminatedQuote (chars "echo 'oops") = true :=
  tokenizeCmd_spec.2.2 (chars "echo 'oops")

/-- CLAIM C4.  Whenever `_change_directory` resolves a virtual target, a
nonexistent resolved real path makes it print the "No such file or
directory" message and leave the session state unchanged, and an existing
resolved real path that is not a directory makes it print the "Not a
directory" message and leave the state unchanged: the state is committed
only after both checks pass. -/
theorem changeDirectory_checks (fsRoot : List Char) (ex isDir : List Char → Bool)
    (st : ShellState) (path np : List Char)
    (h : cdResolveVirtual st path = some np) :
    (ex (virtualToRealPath fsRoot np) = false →
      changeDirectory fsRoot ex isDir st path = (st, some CdMsg.noSuchFile))
    ∧ (ex (virtualToRealPath fsRoot np) = true →
      isDir (virtualToRealPath fsRoot np) = false →
        changeDirectory fsRoot ex isDir st path = (st, some CdMsg.notADirectory)) := by
  constructor
  · intro hex
    unfold changeDirectory
    rw [h]
    simp [hex]
  · intro hex hdir
    unfold changeDirectory
    rw [h]
    simp [hex, hdir]

/-- Witness for C4: with a world where nothing exists, `cd docs` from "/"
prints the no-such-file message and leaves the state unchanged. -/
theorem changeDirectory_checks_witness :
    cdResolveVirtual ⟨chars "/", chars "/fs"⟩ (chars "docs") = some (chars "/docs")
    ∧ changeDirectory (chars "/fs") (fun _ => false) (fun _ => false)
        ⟨chars "/", chars "/fs"⟩ (chars "docs") =
          (⟨chars "/", chars "/fs"⟩, some CdMsg.noSuchFile) :=
  ⟨by decide,
    (changeDirectory_checks (chars "/fs") (fun _ => false) (fun _ => false)
      ⟨chars "/", chars "/fs"⟩ (chars "docs") (chars "/docs") (by decide)).1 rfl⟩

/-- Counterexample to CLAIM C5: a successful `cd .` from "/" (in a world
where every real path exists and is a directory) commits the stored
current directory "/.", which contains a "." segment — the stored virtual
directory is not kept in normalized form. -/
theorem currentDir_not_normalized_cex :
    (changeDirectory (chars "/fs") (fun _ => true) (fun _ => true)
        ⟨chars "/", chars "/fs"⟩ (chars ".")).2 = none
    ∧ (changeDirectory (chars "/fs") (fun _ => true) (fun _ => true)
        ⟨chars "/", chars "/fs"⟩ (chars ".")).1.currentDir = chars "/."
    ∧ isNormalizedVPath
        ((changeDirectory (chars "/fs") (fun _ => true) (fun _ => true)
          ⟨chars "/", chars "/fs"⟩ (chars ".")).1.currentDir) = false
    ∧ (changeDirectory (chars "/fs") (fun _ => true) (fun _ => true)
        ⟨chars "/", chars "/fs"⟩ (chars ".")).1 ≠ ⟨chars "/", chars "/fs"⟩ := by
  exact ⟨by decide, by decide, by decide, by decide⟩

/-- CLAIM C5 (amended).  A successful `cd` commits the joined virtual
target verbatim — it may contain ".", ".." or empty segments — while the
cached real path is the resolver image of that stored virtual directory
(normalization happens only inside `_virtual_to_real_path`). -/
theorem changeDirectory_commits_verbatim (fsRoot : List Char)
    (ex isDir : List Char → Bool) (st : ShellState) (path np : List Char)
    (h : cdResolveVirtual st path = some np)
    (hex : ex (virtualToRealPath fsRoot np) = true)
    (hdir : isDir (virtualToRealPath fsRoot np) = true) :
    changeDirectory fsRoot ex isDir st path =
      ({ currentDir := np, realCurrentDir := virtualToRealPath fsRoot np }, none)
    ∧ (changeDirectory fsRoot ex isDir st path).1.realCurrentDir =
        virtualToRealPath fsRoot (changeDirectory fsRoot ex isDir st path).1.currentDir := by
  have hmain : changeDirectory fsRoot ex isDir st path =
      ({ currentDir := np, realCurrentDir := virtualToRealPath fsRoot np }, none) := by
    unfold changeDirectory
    rw [h]
    simp [hex, hdir]
  exact ⟨hmain, by rw [hmain]⟩

/-- Witness for C5 (amended): `cd .` from "/" stores "/." verbatim and
caches its resolver image "/fs". -/
theorem changeDirectory_commits_verbatim_witness :
    cdResolveVirtual ⟨chars "/", chars "/fs"⟩ (chars ".") = some (chars "/.")
    ∧ changeDirectory (chars "/fs") (fun _ => true) (fun _ => true)
        ⟨chars "/", chars "/fs"⟩ (chars ".") =
        ({ currentDir := chars "/.",
           realCurrentDir := virtualToRealPath (chars "/fs") (chars "/.") }, none) :=
  ⟨by decide,
    (changeDirectory_commits_verbatim (chars "/fs") (fun _ => true) (fun _ => true)
      ⟨chars "/", chars "/fs"⟩ (chars ".") (chars "/.") (by decide) rfl rfl).1⟩

/-- Counterexample to CLAIM C6: an app directory whose `app.json` exists
but fails to parse is not degraded to a minimal descriptor — even though
a readable `main.sh` entry script is present, `_load_app_info` returns
`None` and a scan registers the app in neither namespace. -/
theorem appJson_parse_error_excludes_cex :
    fsGet fsC6 (brokenDirC6 ++ [chars "app.json"]) ≠ none
    ∧ fsGet fsC6 (brokenDirC6 ++ [chars "main.sh"]) ≠ none
    ∧ loadAppInfo fsC6 brokenDirC6 (chars "broken") = none
    ∧ (scanApps fsC6 appsDirC6 [chars "nobin"]).apps = []
    ∧ (scanApps fsC6 appsDirC6 [chars "nobin"]).systemApps = [] := by
  exact ⟨by decide, by decide, by decide, by decide, by decide⟩

/-- CLAIM C6 (amended).  An `app.json` that exists but fails to parse
excludes the app from both namespaces (the loader returns `None`); the
best-effort minimal descriptor is produced instead when no `app.json`
exists and the `main.py` import fails, or when no `app.json`/`main.py`
exists and the `main.sh` read fails; and a directory with no descriptor
file and no entry script at all is silently excluded. -/
theorem loadAppInfo_error_policy (fs : FS) (appDir : FPath) (dirName : Seg) :
    (∀ e, fsGet fs (appDir ++ [chars "app.json"]) = some e → jsonOf (some e) = none →
      loadAppInfo fs appDir dirName = none)
    ∧ (fsGet fs (appDir ++ [chars "app.json"]) = none →
      ∀ e, fsGet fs (appDir ++ [chars "main.py"]) = some e → pyOf (some e) = none →
        loadAppInfo fs appDir dirName =
          some { name := dirName, path := appDir, appType := chars "py"
                 description := chars "Applicazione: " ++ dirName
                 version := chars "1.0.0", author := [], systemApp := false })
    ∧ (fsGet fs (appDir ++ [chars "app.json"]) = none →
      fsGet fs (appDir ++ [chars "main.py"]) = none →
      ∀ e, fsGet fs (appDir ++ [chars "main.sh"]) = some e → shLinesOf (some e) = none →
        loadAppInfo fs appDir dirName =
          some { name := dirName, path := appDir, appType := chars "sh"
                 description := chars "Applicazione: " ++ dirName
                 version := chars "1.0.0", author := [], systemApp := false })
    ∧ (fsGet fs (appDir ++ [chars "app.json"]) = none →
      fsGet fs (appDir ++ [chars "main.py"]) = none →
      fsGet fs (appDir ++ [chars "main.sh"]) = none →
        loadAppInfo fs appDir dirName = none) := by
  refine ⟨?_, ?_, ?_, ?_⟩
  · intro e he hparse
    unfold loadAppInfo
    simp [he, hparse]
  · intro hj e he hparse
    unfold loadAppInfo
    simp [hj, he, hparse]
  · intro hj hp e he hparse
    unfold loadAppInfo
    simp [hj, hp, he, hparse]
  · intro hj hp hs
    unfold loadAppInfo
    simp [hj, hp, hs]

/-- Witness for C6 (amended), exercising all four branches on concrete
directories: corrupt `app.json`, failing `main.py` import, unreadable
`main.sh`, and an empty directory. -/
theorem loadAppInfo_error_policy_witness :
    fsGet fsC6 (brokenDirC6 ++ [chars "app.json"]) =
        some ⟨false, false, Content.jsonDesc none⟩
    ∧ loadAppInfo fsC6 brokenDirC6 (chars "broken") = none
    ∧ loadAppInfo fsC6py (appsDirC6 ++ [chars "pybad"]) (chars "pybad") =
        some { name := chars "pybad", path := appsDirC6 ++ [chars "pybad"]
               appType := chars "py"
               description := chars "Applicazione: " ++ chars "pybad"
               version := chars "1.0.0", author := [], systemApp := false }
    ∧ loadAppInfo fsC6sh (appsDirC6 ++ [chars "shbad"]) (chars "shbad") =
        some { name := chars "shbad", path := appsDirC6 ++ [chars "shbad"]
               appType := chars "sh"
               description := chars "Applicazione: " ++ chars "shbad"
               version := chars "1.0.0", author := [], systemApp := false }
    ∧ loadAppInfo [] [chars "empty"] (chars "empty") = none :=
  ⟨by decide,
   (loadAppInfo_error_policy fsC6 brokenDirC6 (chars "broken")).1
     ⟨false, false, Content.jsonDesc none⟩ (by decide) (by decide),
   (loadAppInfo_error_policy fsC6py (appsDirC6 ++ [chars "pybad"]) (chars "pybad")).2.1
     (by decide) ⟨false, true, Content.pyMod none⟩ (by decide) (by decide),
   (loadAppInfo_error_policy fsC6sh (appsDirC6 ++ [chars "shbad"]) (chars "shbad")).2.2.1
     (by decide) (by decide) ⟨false, true, Content.shText none⟩ (by decide) (by decide),
   (loadAppInfo_error_policy [] [chars "empty"] (chars "empty")).2.2.2
     (by decide) (by decide) (by decide)⟩

/-- CLAIM C7.  Scanning an apps directory holding one folder with a valid
descriptor (name "calc", `system_app` false) and one folder with only a
shell entry script whose first lines carry "# Name: shtool" and
"# System: true" registers exactly one user app "calc" and exactly one
system app "shtool", each retrievable from its namespace. -/
theorem scanApps_descriptor_and_shell :
    (scanApps fsC7 appsDirC7 sysBinDirC7).apps =
      [(chars "calc",
        { name := chars "calc", path := appsDirC7 ++ [chars "calc"]
          appType := chars "py", description := chars "Calculator"
          version := chars "1.0.0", author := [], systemApp := false })]
    ∧ (scanApps fsC7 appsDirC7 sysBinDirC7).systemApps =
      [(chars "shtool",
        { name := chars "shtool", path := appsDirC7 ++ [chars "shellapp"]
          appType := chars "sh", description := []
          version := chars "1.0.0", author := [], systemApp := true })]
    ∧ dictFind (scanApps fsC7 appsDirC7 sysBinDirC7).apps (chars "calc") ≠ none
    ∧ dictFind (scanApps fsC7 appsDirC7 sysBinDirC7).systemApps (chars "shtool") ≠ none := by
  exact ⟨by decide, by decide, by decide, by decide⟩

theorem loadAppInfo_path (fs : FS) (p : FPath) (s : Seg) (i : AppInfo)
    (h : loadAppInfo fs p s = some i) : i.path = p := by
  simp only [loadAppInfo] at h
  split at h
  · split at h
    · cases h; rfl
    · cases h
  · split at h
    · split at h
      · cases h; rfl
      · cases h; rfl
    · split at h
      · split at h
        · cases h; rfl
        · cases h; rfl
      · cases h

theorem mem_dictInsert (d : List (Seg × AppInfo)) (k : Seg) (v : AppInfo)
    (x : Seg × AppInfo) (h : x ∈ dictInsert d k v) : x ∈ d ∨ x = (k, v) := by
  unfold dictInsert at h
  split at h
  · rcases List.mem_append.mp h with h1 | h1
    · exact Or.inl h1
    · exact Or.inr (List.mem_singleton.mp h1)
  · rcases List.mem_map.mp h with ⟨y, hy, hxy⟩
    by_cases hk : y.1 = k
    · right
      rw [← hxy, if_pos hk]
    · left
      rw [← hxy, if_neg hk]
      exact hy

theorem scanStepBin_apps (d : FPath) (r : ScanResult) (c : Seg × Entry) :
    (scanStepBin d r c).apps = r.apps := by
  unfold scanStepBin
  split <;> rfl

theorem foldl_scanStepBin_apps (d : FPath) (l : List (Seg × Entry)) :
    ∀ r, (l.foldl (scanStepBin d) r).apps = r.apps := by
  induction l with
  | nil => intro r; rfl
  | cons c cs ih =>
    intro r
    rw [List.foldl_cons, ih, scanStepBin_apps]

theorem foldl_scanStepUser_paths (fs : FS) (appsDir : FPath)
    (l : List (Seg × Entry)) :
    ∀ r, (∀ n i, (n, i) ∈ r.apps → ∃ d, i.path = appsDir ++ [d]) →
      ∀ n i, (n, i) ∈ (l.foldl (scanStepUser fs appsDir) r).apps →
        ∃ d, i.path = appsDir ++ [d] := by
  induction l with
  | nil => intro r hr; exact hr
  | cons c cs ih =>
    intro r hr
    rw [List.foldl_cons]
    apply ih
    intro n i hmem
    unfold scanStepUser at hmem
    split at hmem
    · split at hmem
      · rename_i info hload
        split at hmem
        · rcases mem_dictInsert _ _ _ _ hmem with h1 | h1
          · exact hr n i h1
          · cases h1
            exact ⟨c.1, loadAppInfo_path _ _ _ _ hload⟩
        · exact hr n i hmem
      · exact hr n i hmem
    · exact hr n i hmem

/-- Counterexample to CLAIM C8: in the concrete scenario, after
installing and rescanning, the user namespace still maps "calc" to the
original source directory under `base_path/apps`; no registered user app
points at the installed copy under `fs_root/usr/apps`, even though that
copy exists on disk. -/
theorem install_rescan_not_installed_copy_cex :
    dictFind scanC8r.apps (chars "calc") = some calcInfoC8
    ∧ calcInfoC8.path = appsDirC8 ++ [chars "calc"]
    ∧ calcInfoC8.path ≠ vAppsDirC8 ++ [chars "calc"]
    ∧ (∀ kv ∈ scanC8r.apps, kv.2.path ≠ vAppsDirC8 ++ [chars "calc"])
    ∧ fsGet fsC8i (vAppsDirC8 ++ [chars "calc", chars "main.py"]) ≠ none := by
  exact ⟨by decide, by decide, by decide, by decide, by decide⟩

/-- CLAIM C8 (amended).  Rescanning after an install re-finds every user
app at its original source directory (every registered user app's path is
directly under the scanned `apps_dir`, which never coincides with the
install destination `usr/apps` under `fs_root`); in the concrete
scenario the rescan result equals the original scan, while the installed
copy exists under the virtual filesystem with the executable permission
bit preserved on its files (`main.py` stays executable, `app.json` stays
non-executable). -/
theorem scanApps_rescan_finds_original :
    (∀ (fs : FS) (appsDir sysBinDir : FPath) (n : Seg) (i : AppInfo),
      (n, i) ∈ (scanApps fs appsDir sysBinDir).apps → ∃ d, i.path = appsDir ++ [d])
    ∧ scanC8r.apps = scanC8.apps
    ∧ dictFind scanC8r.apps (chars "calc") = some calcInfoC8
    ∧ fsGet fsC8i (vAppsDirC8 ++ [chars "calc", chars "main.py"]) =
        some ⟨false, true, Content.pyMod none⟩
    ∧ fsGet fsC8i (vAppsDirC8 ++ [chars "calc", chars "app.json"]) =
        some ⟨false, false, Content.jsonDesc (some
          { name := some (chars "calc"), jtype := none, description := none
            version := none, author := none, systemApp := some false })⟩ := by
  refine ⟨?_, by decide, by decide, by decide, by decide⟩
  intro fs appsDir sysBinDir n i h
  simp only [scanApps] at h
  rw [foldl_scanStepBin_apps] at h
  exact foldl_scanStepUser_paths fs appsDir _ _ (by intro n0 i0 h0; cases h0) n i h

/-- Witness for C8 (amended), applying the general scan-path fact to the
concrete registered app "calc". -/
theorem scanApps_rescan_finds_original_witness :
    (chars "calc", calcInfoC8) ∈ (scanApps fsC8 appsDirC8 sysBinDirC8).apps
    ∧ ∃ d, calcInfoC8.path = appsDirC8 ++ [d] :=
  ⟨by decide,
    scanApps_rescan_finds_original.1 fsC8 appsDirC8 sysBinDirC8 (chars "calc")
      calcInfoC8 (by decide)⟩

theorem charListLe_total : ∀ s t, charListLe s t = true ∨ charListLe t s = true := by
  intro s
  induction s with
  | nil => intro t; exact Or.inl rfl
  | cons a as ih =>
    intro t
    cases t with
    | nil => exact Or.inr rfl
    | cons b bs =>
      by_cases hab : a < b
      · left; simp [charListLe, hab]
      · by_cases hba : b < a
        · right; simp [charListLe, hba]
        · rcases ih bs with h | h
          · left; simp [charListLe, hab, hba, h]
          · right; simp [charListLe, hab, hba, h]

theorem charListLe_trans :
    ∀ s t u, charListLe s t = true → charListLe t u = true → charListLe s u = true := by
  intro s
  induction s with
  | nil => intro t u h1 h2; rfl
  | cons a as ih =>
    intro t u h1 h2
    cases t with
    | nil => simp [charListLe] at h1
    | cons b bs =>
      cases u with
      | nil => simp [charListLe] at h2
      | cons c cs =>
        simp only [charListLe] at h1 h2 ⊢
        by_cases hab : a < b
        · by_cases hbc : b < c
          · simp [lt_trans hab hbc]
          · by_cases hcb : c < b
            · simp [hbc, hcb] at h2
            · have hbc2 : b = c := le_antisymm (not_lt.mp hcb) (not_lt.mp hbc)
              simp [hbc2 ▸ hab]
        · by_cases hba : b < a
          · simp [hab, hba] at h1
          · have hab2 : a = b := le_antisymm (not_lt.mp hba) (not_lt.mp hab)
            subst hab2
            simp only [hab, hba, if_neg, ite_self] at h1   
            by_cases hac : a < c
            · simp [hac]
            · by_cases hca : c < a
              · simp [hac, hca] at h2
              · simp only [hac, hca, if_neg, ite_self] at h2 ⊢
                simp at h1 h2 ⊢
                exact ih bs cs (by simpa [hab, hba] using h1) (by simpa [hac, hca] using h2)

theorem itemLeB_total : ∀ a b, itemLeB a b = true ∨ itemLeB b a = true := by
  intro a b
  rcases Nat.lt_trichotomy (itemSortGroup a) (itemSortGroup b) with h | h | h
  · left; simp [itemLeB, h]
  · rcases charListLe_total (itemSortName a) (itemSortName b) with hc | hc
    · left; simp [itemLeB, h, Nat.lt_irrefl, hc]
    · right; simp [itemLeB, h.symm, Nat.lt_irrefl, hc]
  · right; simp [itemLeB, h]

theorem itemLeB_trans :
    ∀ a b c, itemLeB a b = true → itemLeB b c = true → itemLeB a c = true := by
  intro a b c h1 h2
  unfold itemLeB at h1 h2 ⊢
  by_cases g1 : itemSortGroup a < itemSortGroup b
  · by_cases g2 : itemSortGroup b < itemSortGroup c
    · rw [if_pos (lt_trans g1 g2)]
    · by_cases g3 : itemSortGroup c < itemSortGroup b
      · rw [if_neg g2, if_pos g3] at h2
        simp at h2
      · have he : itemSortGroup b = itemSortGroup c :=
          Nat.le_antisymm (Nat.not_lt.mp g3) (Nat.not_lt.mp g2)
        rw [if_pos (show itemSortGroup a < itemSortGroup c by rw [← he]; exact g1)]
  · by_cases g0 : itemSortGroup b < itemSortGroup a
    · rw [if_neg g1, if_pos g0] at h1
      simp at h1
    · have he : itemSortGroup a = itemSortGroup b :=
        Nat.le_antisymm (Nat.not_lt.mp g0) (Nat.not_lt.mp g1)
      rw [if_neg g1, if_neg g0] at h1
      by_cases g2 : itemSortGroup b < itemSortGroup c
      · rw [if_pos (show itemSortGroup a < itemSortGroup c by rw [he]; exact g2)]
      · by_cases g3 : itemSortGroup c < itemSortGroup b
        · rw [if_neg g2, if_pos g3] at h2
          simp at h2
        · rw [if_neg g2, if_neg g3] at h2
          rw [if_neg (show ¬ itemSortGroup a < itemSortGroup c by rw [he]; exact g2),
            if_neg (show ¬ itemSortGroup c < itemSortGroup a by rw [he]; exact g3)]
          exact charListLe_trans _ _ _ h1 h2

theorem itemLeB_group_le (a b : FileItem) (h : itemLeB a b = true) :
    itemSortGroup a ≤ itemSortGroup b := by
  unfold itemLeB at h
  by_cases h1 : itemSortGroup a < itemSortGroup b
  · exact le_of_lt h1
  · by_cases h2 : itemSortGroup b < itemSortGroup a
    · simp [h1, h2] at h
    · exact Nat.not_lt.mp h2

/-- Counterexample to CLAIM C9: loading a non-root directory containing a
directory named "!warez" (and a file "b.txt") puts "!warez" first, not
the parent entry ".." — the parent entry shares sort group 0 with
directories and is ordered by its literal lowercased name, and "!"
precedes "." in code-point order. -/
theorem loadDirectory_parent_not_first_cex :
    (loadDirectoryItems (chars "/docs")
        [⟨chars "!warez", true⟩, ⟨chars "b.txt", false⟩]).head? =
      some ⟨chars "!warez", true⟩
    ∧ (loadDirectoryItems (chars "/docs")
        [⟨chars "!warez", true⟩, ⟨chars "b.txt", false⟩]).head? ≠
      some ⟨chars "..", true⟩ := by
  exact ⟨by decide, by decide⟩

/-- CLAIM C9 (amended).  The loaded item list of a non-root directory is
a permutation of the parent entry ".." plus the directory's entries,
sorted by the key (group, lowercased name) where the parent entry and
directories share group 0 and files have group 1: the whole directory
group (including "..") precedes every file, groups are ordered
case-insensitively by name inside, and ".." is first only when no
directory name lowercases below ".."  (names beginning with characters
such as "!" precede it). -/
theorem loadDirectory_sorted (vdir : List Char) (entries : List FileItem) :
    List.Perm (loadDirectoryItems vdir entries)
      (if vdir = chars "/" then entries else ⟨chars "..", true⟩ :: entries)
    ∧ List.Sorted itemLe (loadDirectoryItems vdir entries)
    ∧ List.Pairwise (fun a b => itemSortGroup a ≤ itemSortGroup b)
        (loadDirectoryItems vdir entries) := by
  have hsorted : List.Sorted itemLe (loadDirectoryItems vdir entries) := by
    unfold loadDirectoryItems sortItems
    exact @List.sorted_insertionSort FileItem itemLe _
      ⟨itemLeB_total⟩ ⟨itemLeB_trans⟩ _
  refine ⟨?_, hsorted, ?_⟩
  · unfold loadDirectoryItems sortItems
    exact List.perm_insertionSort itemLe _
  · exact List.Pairwise.imp (fun h => itemLeB_group_le _ _ h) hsorted
